import Mathlib

/-!
Shallow embedding of `src/mem/superslab.h` (class `Superslab` of snmalloc).

Conventions of the embedding:
* `SLAB_COUNT` (written `N` below) is a build-time constant (a power of two,
  at most 256 since `head` is a `Mod<SLAB_COUNT, uint8_t>`); it is a parameter
  of every definition.  The C code reduces indices with `& (SLAB_COUNT - 1)`
  and with the `Mod`/`ModArray` wrappers; for a power of two these are exactly
  reduction `% N`, which is how they are written here.
* machine integers are modelled as `Nat` with explicit reduction where
  overflow can occur: `used` is a `uint16_t`, so the increments and
  decrements of `used` are written `% 2 ^ 16`; the `static_cast<uint8_t>`
  of a size class is written `% 256`.
* addresses are `Nat`s: the superslab header lives at `base` and slot `i`
  starts at `base + i * 2 ^ SLAB_BITS` (with `SLAB_SIZE = 2 ^ SLAB_BITS`).
* the `Metaslab` record (metaslab.h is not among the provided sources) is
  modelled from the spec: a "next free slot" offset field (stored modulo
  `SLAB_COUNT`), a stored size class (`uint8_t`), and an internal object
  free-queue that this core only ever initialises and immediately marks
  exhausted — modelled as the boolean flag `fullQueue`.
-/

namespace Snmalloc

/-- Metaslab per-slot metadata record.  Modelled from the spec (§6): the
record exposes a stored size class, a "next free slot" offset field, and an
object free-queue that the superslab code initialises (`free_queue.init()`)
and immediately marks exhausted (`set_full()`); the latter pair is modelled
by setting the flag `fullQueue`. -/
structure Metaslab where
  next : Nat
  sizeclass : Nat
  fullQueue : Bool
deriving DecidableEq, Repr

instance : Inhabited Metaslab := ⟨⟨0, 0, false⟩⟩

/-- Status of a superslab, derived from `used` (superslab.h, enum `Status`). -/
inductive Status where
  | Full
  | Available
  | OnlyShortSlabAvailable
  | Empty
deriving DecidableEq, Repr

/-- Result signal of the deallocation paths (superslab.h, enum `Action`). -/
inductive Action where
  | NoSlabReturn
  | NoStatusChange
  | StatusChange
deriving DecidableEq, Repr

/-- Mutable state of a `Superslab` header: the free-list head index
(`Mod<SLAB_COUNT, uint8_t> head`), the encoded usage counter
(`uint16_t used`), and the dense metadata array
(`ModArray<SLAB_COUNT, Metaslab> meta`, of length `SLAB_COUNT`).
The `prev`/`next` list links and the `allocator` field are never touched by
the operations modelled here and are omitted. -/
structure Superslab where
  head : Nat
  used : Nat
  meta : List Metaslab
deriving DecidableEq, Repr

/-- Read `meta[i]`; `ModArray` reduces the index modulo `SLAB_COUNT`. -/
def metaAt (N : Nat) (s : Superslab) (i : Nat) : Metaslab :=
  s.meta.getD (i % N) default

/-- Write `meta[i]`; `ModArray` reduces the index modulo `SLAB_COUNT`. -/
def setMeta (N : Nat) (s : Superslab) (i : Nat) (m : Metaslab) : Superslab :=
  { s with meta := s.meta.set (i % N) m }

/-- Code: `bool is_empty() { return used == 0; }` -/
def is_empty (s : Superslab) : Bool :=
  s.used == 0

/-- Code: `bool is_full() { return (used == (((SLAB_COUNT - 1) << 1) + 1)); }` -/
def is_full (N : Nat) (s : Superslab) : Bool :=
  s.used == 2 * (N - 1) + 1

/-- Code: `bool is_almost_full() { return (used >= ((SLAB_COUNT - 1) << 1)); }` -/
def is_almost_full (N : Nat) (s : Superslab) : Bool :=
  decide (2 * (N - 1) ≤ s.used)

/-- Code: `Status get_status()`, the nested-if structure of superslab.h. -/
def get_status (N : Nat) (s : Superslab) : Status :=
  if ¬ (is_almost_full N s) then
    if ¬ (is_empty s) then Status.Available
    else Status.Empty
  else
    if ¬ (is_full N s) then Status.OnlyShortSlabAvailable
    else Status.Full

/-- Code: `slab_to_index` computes `(pointer_diff(this, slab) >> SLAB_BITS)`
(the debug assertion checks it fits in a `uint8_t`). -/
def slab_to_index (SLAB_BITS base slabAddr : Nat) : Nat :=
  (slabAddr - base) / 2 ^ SLAB_BITS

/-- Code: `static Slab* alloc_slab(Superslab* self, sizeclass_t sizeclass)`.
Pops the slot at `head`: reads `n = meta[h].next`, initialises the slot's
free queue and marks it exhausted, records the (uint8-truncated) size class,
sets `head = h + n + 1` (reduced by the `Mod` wrapper) and `used += 2`
(uint16).  Returns the slot's base address paired with the new state. -/
def alloc_slab (N SLAB_BITS base : Nat) (s : Superslab) (sc : Nat) :
    Nat × Superslab :=
  let h := s.head
  let slabAddr := base + h * 2 ^ SLAB_BITS
  let n := (metaAt N s h).next
  let s1 := setMeta N s h
    { next := (metaAt N s h).next, sizeclass := sc % 256, fullQueue := true }
  (slabAddr, { s1 with head := (h + n + 1) % N, used := (s.used + 2) % 2 ^ 16 })

/-- Code: `static Slab* alloc_short_slab(Superslab* self, sizeclass_t p)`.
If `used` is odd the short slab is taken and the call delegates to
`alloc_slab`; otherwise slot 0's record is initialised exactly as in
`alloc_slab` and `used` is incremented by 1 (uint16).  Returns the header's
own address as the slab base. -/
def alloc_short_slab (N SLAB_BITS base : Nat) (s : Superslab) (sc : Nat) :
    Nat × Superslab :=
  if s.used % 2 == 1 then
    alloc_slab N SLAB_BITS base s sc
  else
    let s1 := setMeta N s 0
      { next := (metaAt N s 0).next, sizeclass := sc % 256, fullQueue := true }
    (base, { s1 with used := (s.used + 1) % 2 ^ 16 })

/-- Code: `Action dealloc_slab(Slab* slab)`.  Computes the slot index,
stores `next = head - index - 1` (the distance-minus-one offset, modulo
`SLAB_COUNT`), clears the size class, pushes the slot to the front
(`head = index`), and decrements `used` by 2 (uint16); returns
`StatusChange` iff `is_almost_full` held before the decrement or the
superslab is empty after it. -/
def dealloc_slab (N SLAB_BITS base : Nat) (s : Superslab) (slabAddr : Nat) :
    Action × Superslab :=
  let index := slab_to_index SLAB_BITS base slabAddr % N
  let n := (s.head + N - index - 1) % N
  let s1 := setMeta N s index
    { next := n, sizeclass := 0, fullQueue := (metaAt N s index).fullQueue }
  let s2 := { s1 with head := index }
  let wasAlmostFull := is_almost_full N s2
  let s3 := { s2 with used := (s2.used + 2 ^ 16 - 2) % 2 ^ 16 }
  (if wasAlmostFull || is_empty s3 then Action.StatusChange
   else Action.NoStatusChange, s3)

/-- Code: `Action dealloc_short_slab()`.  Decrements `used` by 1 (uint16);
returns `StatusChange` iff the superslab was full before the decrement or is
empty after it.  Touches neither `head` nor any metadata record. -/
def dealloc_short_slab (N : Nat) (s : Superslab) : Action × Superslab :=
  let wasFull := is_full N s
  let s1 := { s with used := (s.used + 2 ^ 16 - 1) % 2 ^ 16 }
  (if wasFull || is_empty s1 then Action.StatusChange
   else Action.NoStatusChange, s1)

/-- One step of the free-chain walk of `init`'s debug block:
`curr = (curr + meta[curr].next + 1) & (SLAB_COUNT - 1)`. -/
def chainStep (N : Nat) (s : Superslab) (curr : Nat) : Nat :=
  (curr + (metaAt N s curr).next + 1) % N

/-- Position of the free-chain walk after `k` steps starting from `head`. -/
def walkFrom (N : Nat) (s : Superslab) (k : Nat) : Nat :=
  (chainStep N s)^[k] s.head

/-- Iteration count of `init`'s debug walk: the loop bound
`SLAB_COUNT - used - 1` is computed in `size_t`, so it wraps modulo
`2 ^ 64` when `used + 1 > SLAB_COUNT`. -/
def initWalkSteps (N used : Nat) : Nat :=
  (((N : Int) - (used : Int) - 1) % (2 ^ 64)).toNat

/-- Embedding of the first debug check of `init` (superslab.h lines
134-140): walk `initWalkSteps` steps from `head` and test that the walk
landed on slot 0 (`if (curr != 0) abort();`). -/
def initChainCheck (N : Nat) (s : Superslab) : Bool :=
  walkFrom N s (initWalkSteps N s.used) == 0

/-- Number of free regular slots encoded by `used`:
`SLAB_COUNT - 1` regular slots minus the `used >> 1` allocated ones. -/
def freeCount (N : Nat) (s : Superslab) : Nat :=
  N - 1 - s.used / 2

/-- Free-list invariant: the metadata array has length `SLAB_COUNT`, `head`
is a reduced index, every stored next-offset is reduced modulo `SLAB_COUNT`,
and walking from `head` stays on nonzero (regular) slots for `freeCount`
steps and lands on the slot-0 terminator exactly then. -/
def chainInv (N : Nat) (s : Superslab) : Prop :=
  s.meta.length = N ∧ s.head < N ∧ (∀ m ∈ s.meta, m.next < N) ∧
    walkFrom N s (freeCount N s) = 0 ∧
    ∀ j, j < freeCount N s → walkFrom N s j ≠ 0

instance (N : Nat) (s : Superslab) : Decidable (chainInv N s) := by
  unfold chainInv
  infer_instance

/-- State of a freshly zero-filled superslab after `init`: `head = 1`,
`used = 0`, every metadata record default (all-zero). -/
def zeroSuperslab (N : Nat) : Superslab :=
  { head := 1, used := 0, meta := List.replicate N default }

/-- Linear search for the least index satisfying `p`, scanning `fuel`
consecutive candidates upward from `start`. -/
def find_least (p : Nat → Bool) : Nat → Nat → Option Nat
  | 0, _ => none
  | fuel + 1, start =>
      if p start then some start else find_least p fuel (start + 1)

/-- Modelled from the spec: `size_to_sizeclass_const` (declared in
sizeclass.h, which is not among the provided sources) "rounds up and
returns the smallest class that could contain" a given size — the least
class index `c` (among the finitely many size classes) whose maximum
object size `s2s c` is at least `sz`. -/
def size_to_sizeclass_const (s2s : Nat → Nat) (numClasses sz : Nat) : Nat :=
  (find_least (fun c => decide (sz ≤ s2s c)) numClasses 0).getD numClasses

/-- Code: `is_short_sizeclass(sizeclass)` returns
`sizeclass < size_to_sizeclass_const(SLAB_SIZE - sizeof(Superslab))`,
a strict comparison against the constant threshold class. -/
def is_short_sizeclass (s2s : Nat → Nat) (numClasses SLABSZ hdrSize sc : Nat) :
    Bool :=
  decide (sc < size_to_sizeclass_const s2s numClasses (SLABSZ - hdrSize))

/-- Value of `get_status` as a pure function of `used` (helper). -/
def statusOf (N u : Nat) : Status :=
  if 2 * (N - 1) ≤ u then
    (if u = 2 * (N - 1) + 1 then Status.Full
     else Status.OnlyShortSlabAvailable)
  else (if u = 0 then Status.Empty else Status.Available)

theorem getD_replicate (n i : Nat) (d : Metaslab) :
    (List.replicate n d).getD i d = d := by
  rcases Nat.lt_or_ge i n with h | h
  · rw [List.getD_eq_getElem _ _ (by simpa using h)]
    simp
  · rw [List.getD_eq_default _ _ (by simpa using h)]

theorem zeroSuperslab_chainStep (N c : Nat) :
    chainStep N (zeroSuperslab N) c = (c + 1) % N := by
  simp [chainStep, metaAt, zeroSuperslab, getD_replicate]
  rfl

theorem walkFrom_zeroSuperslab (N : Nat) (hN : 2 ≤ N) (k : Nat) :
    walkFrom N (zeroSuperslab N) k = (k + 1) % N := by
  induction k with
  | zero =>
      show (1 : Nat) = (0 + 1) % N
      rw [Nat.mod_eq_of_lt (by omega)]
  | succ k ih =>
      rw [walkFrom, Function.iterate_succ_apply', ← walkFrom, ih,
        zeroSuperslab_chainStep, Nat.mod_add_mod]

/-- C1: under the encoding invariant `used = 2*k + b` (k allocated regular
slots, b the short-slab bit), the status queries are the stated pure
functions of `used`: `is_empty` iff `used = 0`, `is_full` iff
`used = 2*(SLAB_COUNT-1)+1`, `is_almost_full` iff `k = SLAB_COUNT-1`, and
`get_status` follows the table of §3 of the spec. -/
theorem status_queries_of_used (N k b : Nat) (s : Superslab)
    (henc : s.used = 2 * k + b) (hb : b ≤ 1) (hk : k ≤ N - 1) (hN : 2 ≤ N) :
    (is_empty s = true ↔ s.used = 0) ∧
    (is_full N s = true ↔ s.used = 2 * (N - 1) + 1) ∧
    (is_almost_full N s = true ↔ k = N - 1) ∧
    (get_status N s = Status.Empty ↔ s.used = 0) ∧
    (get_status N s = Status.Available ↔ 0 < s.used ∧ s.used < 2 * (N - 1)) ∧
    (get_status N s = Status.OnlyShortSlabAvailable ↔ s.used = 2 * (N - 1)) ∧
    (get_status N s = Status.Full ↔ s.used = 2 * (N - 1) + 1) := by
  unfold get_status is_empty is_full is_almost_full
  refine ⟨by simp, by simp, by simp; omega, ?_, ?_, ?_, ?_⟩ <;>
    split_ifs with h1 h2 <;> simp_all <;> omega

theorem status_queries_of_used_witness :
    get_status 4 (Superslab.mk 2 3 (List.replicate 4 default)) =
      Status.Available := by
  have h := status_queries_of_used 4 1 1
    (Superslab.mk 2 3 (List.replicate 4 default)) rfl (by decide) (by decide)
    (by decide)
  exact h.2.2.2.2.1.mpr (by decide)

/-- C2: in the zero-initialized state (all metadata next-offsets 0) with
head = 1, the free chain visits the regular slots 1, ..., SLAB_COUNT-1 in
ascending order and then terminates at slot 0, so an all-zero metadata
array is already a valid, complete free list (the free-list invariant
holds with no per-slot initialization). -/
theorem zero_state_free_chain (N : Nat) (hN : 2 ≤ N) :
    (∀ k, k < N - 1 → walkFrom N (zeroSuperslab N) k = k + 1) ∧
    walkFrom N (zeroSuperslab N) (N - 1) = 0 ∧
    chainInv N (zeroSuperslab N) := by
  have hw := walkFrom_zeroSuperslab N hN
  have hvisit : ∀ k, k < N - 1 → walkFrom N (zeroSuperslab N) k = k + 1 := by
    intro k hk
    rw [hw k, Nat.mod_eq_of_lt (by omega)]
  have hterm : walkFrom N (zeroSuperslab N) (N - 1) = 0 := by
    rw [hw (N - 1)]
    have h1 : N - 1 + 1 = N := by omega
    rw [h1, Nat.mod_self]
  refine ⟨hvisit, hterm, ?_, by simp [zeroSuperslab]; omega, ?_, ?_, ?_⟩
  · simp [zeroSuperslab]
  · intro m hm
    have hd : m = default := List.eq_of_mem_replicate hm
    subst hd
    show (0 : Nat) < N
    omega
  · have hf : freeCount N (zeroSuperslab N) = N - 1 := by
      simp [freeCount, zeroSuperslab]
    rw [hf]
    exact hterm
  · intro j hj
    have hj' : j < N - 1 := by
      simpa [freeCount, zeroSuperslab] using hj
    rw [hvisit j hj']
    omega

theorem zero_state_free_chain_witness :
    (∀ k, k < 3 → walkFrom 4 (zeroSuperslab 4) k = k + 1) ∧
    walkFrom 4 (zeroSuperslab 4) 3 = 0 ∧
    chainInv 4 (zeroSuperslab 4) :=
  zero_state_free_chain 4 (by decide)


theorem length_setMeta (N : Nat) (s : Superslab) (i : Nat) (m : Metaslab) :
    (setMeta N s i m).meta.length = s.meta.length := by
  simp [setMeta]

theorem metaAt_setMeta_self (N : Nat) (s : Superslab) (i : Nat) (m : Metaslab)
    (h : i % N < s.meta.length) : metaAt N (setMeta N s i m) i = m := by
  unfold metaAt setMeta
  rw [List.getD_eq_getElem _ _ (by simpa using h)]
  exact List.getElem_set_self (by simpa using h)

theorem metaAt_setMeta_ne (N : Nat) (s : Superslab) (i j : Nat) (m : Metaslab)
    (hij : j % N ≠ i % N) : metaAt N (setMeta N s j m) i = metaAt N s i := by
  unfold metaAt setMeta
  rcases Nat.lt_or_ge (i % N) s.meta.length with h | h
  · rw [List.getD_eq_getElem _ _ (by simpa using h),
      List.getD_eq_getElem _ _ (by simpa using h)]
    exact List.getElem_set_ne hij _
  · rw [List.getD_eq_default _ _ (by simpa using h),
      List.getD_eq_default _ _ (by simpa using h)]

theorem metaAt_next_lt (N : Nat) (s : Superslab) (i : Nat)
    (hlen : s.meta.length = N) (hN : 0 < N)
    (hnext : ∀ m ∈ s.meta, m.next < N) : (metaAt N s i).next < N := by
  unfold metaAt
  have hi : i % N < s.meta.length := by
    rw [hlen]
    exact Nat.mod_lt _ hN
  rw [List.getD_eq_getElem _ _ (by simpa using hi)]
  exact hnext _ (List.getElem_mem hi)

/-- C3: when the superslab is not almost-full and the free-list invariant
holds, `alloc_slab` returns the base address of slot `old_head`
(header address plus `old_head * SLAB_SIZE`), advances `head` to
`(old_head + n + 1) % SLAB_COUNT` where `n = meta[old_head].next`, records
the size class in slot `old_head`, and increases `used` by exactly 2. -/
theorem alloc_slab_spec (N SB base sc k b : Nat) (s : Superslab)
    (hinv : chainInv N s) (henc : s.used = 2 * k + b) (hb : b ≤ 1)
    (hk : k ≤ N - 1) (hN : 2 ≤ N) (hN2 : N ≤ 256)
    (hfree : is_almost_full N s = false) (hsc : sc < 256) :
    (alloc_slab N SB base s sc).1 = base + s.head * 2 ^ SB ∧
    (alloc_slab N SB base s sc).2.head =
      (s.head + (metaAt N s s.head).next + 1) % N ∧
    (metaAt N (alloc_slab N SB base s sc).2 s.head).sizeclass = sc ∧
    (alloc_slab N SB base s sc).2.used = s.used + 2 := by
  obtain ⟨hlen, hhead, -, -, -⟩ := hinv
  refine ⟨rfl, rfl, ?_, ?_⟩
  · show (metaAt N (setMeta N s s.head
        { next := (metaAt N s s.head).next, sizeclass := sc % 256,
          fullQueue := true }) s.head).sizeclass = sc
    rw [metaAt_setMeta_self N s s.head _
      (by rw [hlen]; exact Nat.mod_lt _ (by omega))]
    exact Nat.mod_eq_of_lt hsc
  · show (s.used + 2) % 2 ^ 16 = s.used + 2
    exact Nat.mod_eq_of_lt (by omega)

theorem alloc_slab_spec_witness :
    (alloc_slab 4 16 0 (zeroSuperslab 4) 5).1 = 0 + 1 * 2 ^ 16 ∧
    (alloc_slab 4 16 0 (zeroSuperslab 4) 5).2.head =
      (1 + (metaAt 4 (zeroSuperslab 4) 1).next + 1) % 4 ∧
    (metaAt 4 (alloc_slab 4 16 0 (zeroSuperslab 4) 5).2 1).sizeclass = 5 ∧
    (alloc_slab 4 16 0 (zeroSuperslab 4) 5).2.used = (zeroSuperslab 4).used + 2 := by
  have h := alloc_slab_spec 4 16 0 5 0 0 (zeroSuperslab 4) (by decide) rfl
    (by decide) (by decide) (by decide) (by decide) (by decide) (by decide)
  simpa using h


theorem getD_set_self (l : List Metaslab) (i : Nat) (m : Metaslab)
    (h : i < l.length) : (l.set i m).getD i default = m := by
  rw [List.getD_eq_getElem _ _ (by simpa using h)]
  exact List.getElem_set_self (by simpa using h)

theorem getD_set_ne (l : List Metaslab) (i j : Nat) (m : Metaslab)
    (h : j ≠ i) : (l.set j m).getD i default = l.getD i default := by
  rcases Nat.lt_or_ge i l.length with hlt | hge
  · rw [List.getD_eq_getElem _ _ (by simpa using hlt),
      List.getD_eq_getElem _ _ (by simpa using hlt)]
    exact List.getElem_set_ne h _
  · rw [List.getD_eq_default _ _ (by simpa using hge),
      List.getD_eq_default _ _ (by simpa using hge)]

/-- C4: `dealloc_slab` on an outstanding regular slot clears the slot's
size class, stores the next-offset `(old_head - index - 1) % SLAB_COUNT`
(written `(old_head + SLAB_COUNT - index - 1) % SLAB_COUNT`, the
nonnegative remainder, since `old_head < SLAB_COUNT` and
`index < SLAB_COUNT`), sets `head` to the slot index, decrements `used`
by 2, and returns `StatusChange` exactly when `is_almost_full` held before
the decrement or the superslab is empty after it. -/
theorem dealloc_slab_spec (N SB base i k b : Nat) (s : Superslab)
    (hlen : s.meta.length = N) (hhead : s.head < N)
    (henc : s.used = 2 * k + b) (hb : b ≤ 1) (hk1 : 1 ≤ k) (hk : k ≤ N - 1)
    (hN : 2 ≤ N) (hN2 : N ≤ 256) (hi : i < N) :
    (metaAt N (dealloc_slab N SB base s (base + i * 2 ^ SB)).2 i).sizeclass
      = 0 ∧
    (metaAt N (dealloc_slab N SB base s (base + i * 2 ^ SB)).2 i).next
      = (s.head + N - i - 1) % N ∧
    (dealloc_slab N SB base s (base + i * 2 ^ SB)).2.head = i ∧
    (dealloc_slab N SB base s (base + i * 2 ^ SB)).2.used = s.used - 2 ∧
    ((dealloc_slab N SB base s (base + i * 2 ^ SB)).1 = Action.StatusChange
      ↔ (is_almost_full N s = true ∨ s.used - 2 = 0)) ∧
    ((dealloc_slab N SB base s (base + i * 2 ^ SB)).1 = Action.NoStatusChange
      ↔ ¬ (is_almost_full N s = true ∨ s.used - 2 = 0)) := by
  have hiN : i % N = i := Nat.mod_eq_of_lt hi
  have hidx : slab_to_index SB base (base + i * 2 ^ SB) % N = i := by
    unfold slab_to_index
    rw [Nat.add_sub_cancel_left,
      Nat.mul_div_cancel _ (Nat.pos_pow_of_pos SB (by omega))]
    exact hiN
  have hused : (s.used + 2 ^ 16 - 2) % 2 ^ 16 = s.used - 2 := by
    have h1 : s.used + 2 ^ 16 - 2 = (s.used - 2) + 2 ^ 16 := by omega
    rw [h1, Nat.add_mod_right]
    exact Nat.mod_eq_of_lt (by omega)
  have hget : ∀ m : Metaslab, (s.meta.set i m).getD i default = m := by
    intro m
    exact getD_set_self s.meta i m (by omega)
  simp only [dealloc_slab, hidx, metaAt, setMeta, hiN, hused]
  refine ⟨by rw [hget], by rw [hget], trivial, trivial, ?_, ?_⟩ <;>
  · simp only [is_almost_full, is_empty, hused, beq_iff_eq,
      Bool.or_eq_true, decide_eq_true_eq]
    split_ifs with hcond
    · simp only [true_iff, reduceCtorEq, false_iff]
      omega
    · simp only [reduceCtorEq, false_iff, true_iff]
      omega

theorem dealloc_slab_spec_witness :
    (metaAt 4 (dealloc_slab 4 16 0
        (Superslab.mk 2 2 (List.replicate 4 default)) (0 + 1 * 2 ^ 16)).2
      1).sizeclass = 0 ∧
    (metaAt 4 (dealloc_slab 4 16 0
        (Superslab.mk 2 2 (List.replicate 4 default)) (0 + 1 * 2 ^ 16)).2
      1).next = (2 + 4 - 1 - 1) % 4 ∧
    (dealloc_slab 4 16 0 (Superslab.mk 2 2 (List.replicate 4 default))
      (0 + 1 * 2 ^ 16)).2.head = 1 ∧
    (dealloc_slab 4 16 0 (Superslab.mk 2 2 (List.replicate 4 default))
      (0 + 1 * 2 ^ 16)).2.used = 2 - 2 ∧
    ((dealloc_slab 4 16 0 (Superslab.mk 2 2 (List.replicate 4 default))
      (0 + 1 * 2 ^ 16)).1 = Action.StatusChange ↔
      (is_almost_full 4 (Superslab.mk 2 2 (List.replicate 4 default)) = true
        ∨ 2 - 2 = 0)) ∧
    ((dealloc_slab 4 16 0 (Superslab.mk 2 2 (List.replicate 4 default))
      (0 + 1 * 2 ^ 16)).1 = Action.NoStatusChange ↔
      ¬ (is_almost_full 4 (Superslab.mk 2 2 (List.replicate 4 default)) = true
        ∨ 2 - 2 = 0)) :=
  dealloc_slab_spec 4 16 0 1 1 0 (Superslab.mk 2 2 (List.replicate 4 default))
    (by decide) (by decide) rfl (by decide) (by decide) (by decide) (by decide)
    (by decide) (by decide)


theorem walkFrom_congr (N : Nat) (s t : Superslab)
    (hhead : t.head = s.head)
    (hnext : ∀ c, (metaAt N t c).next = (metaAt N s c).next) :
    ∀ j, walkFrom N t j = walkFrom N s j := by
  have hstep : chainStep N t = chainStep N s := by
    funext c
    simp only [chainStep, hnext c]
  intro j
  simp only [walkFrom, hstep, hhead]

/-- C5: allocating a regular slot and immediately deallocating the returned
slab restores `head` and leaves the free-chain traversal identical (the
walk visits the same slot at every step, hence the same sequence from
`head` to the slot-0 terminator). -/
theorem alloc_dealloc_roundtrip (N SB base sc : Nat) (s : Superslab)
    (hinv : chainInv N s) (hfree : is_almost_full N s = false)
    (hN : 2 ≤ N) :
    (dealloc_slab N SB base (alloc_slab N SB base s sc).2
       (alloc_slab N SB base s sc).1).2.head = s.head ∧
    ∀ j, walkFrom N (dealloc_slab N SB base (alloc_slab N SB base s sc).2
       (alloc_slab N SB base s sc).1).2 j = walkFrom N s j := by
  obtain ⟨hlen, hheadlt, hnextlt, -, -⟩ := hinv
  have h0 : 0 < N := by omega
  have hhN : s.head % N = s.head := Nat.mod_eq_of_lt hheadlt
  have hnN : (metaAt N s s.head).next < N :=
    metaAt_next_lt N s s.head hlen h0 hnextlt
  have hidx : slab_to_index SB base (base + s.head * 2 ^ SB) % N = s.head := by
    unfold slab_to_index
    rw [Nat.add_sub_cancel_left,
      Nat.mul_div_cancel _ (Nat.pos_pow_of_pos SB (by omega))]
    exact hhN
  have hmod : ((s.head + (metaAt N s s.head).next + 1) % N + N - s.head - 1)
      % N = (metaAt N s s.head).next := by
    rcases Nat.lt_or_ge (s.head + (metaAt N s s.head).next + 1) N with hlt | hge
    · rw [Nat.mod_eq_of_lt hlt]
      have he : s.head + (metaAt N s s.head).next + 1 + N - s.head - 1
          = (metaAt N s s.head).next + N := by omega
      rw [he, Nat.add_mod_right, Nat.mod_eq_of_lt hnN]
    · have h2 : (s.head + (metaAt N s s.head).next + 1) % N
          = s.head + (metaAt N s s.head).next + 1 - N := by
        rw [Nat.mod_eq_sub_mod hge, Nat.mod_eq_of_lt (by omega)]
      rw [h2]
      have h3 : s.head + (metaAt N s s.head).next + 1 - N + N - s.head - 1
          = (metaAt N s s.head).next := by omega
      rw [h3, Nat.mod_eq_of_lt hnN]
  have hstate : (dealloc_slab N SB base (alloc_slab N SB base s sc).2
      (alloc_slab N SB base s sc).1).2 =
      { head := s.head,
        used := ((s.used + 2) % 2 ^ 16 + 2 ^ 16 - 2) % 2 ^ 16,
        meta := s.meta.set s.head
          { next := (metaAt N s s.head).next, sizeclass := 0,
            fullQueue := true } } := by
    simp only [alloc_slab, dealloc_slab, metaAt, setMeta, hidx, hhN,
      List.set_set]
    have hmod' : ((s.head + (s.meta.getD s.head default).next + 1) % N + N
        - s.head - 1) % N = (s.meta.getD s.head default).next := by
      have h4 := hmod
      unfold metaAt at h4
      rwa [hhN] at h4
    rw [hmod', getD_set_self s.meta s.head _ (by omega)]
  refine ⟨by rw [hstate], ?_⟩
  apply walkFrom_congr
  · rw [hstate]
  · intro c
    rw [hstate]
    show ((s.meta.set s.head _).getD (c % N) default).next
      = (metaAt N s c).next
    rcases eq_or_ne (c % N) s.head with hc | hc
    · rw [hc, getD_set_self s.meta s.head _ (by omega)]
      show (metaAt N s s.head).next = (metaAt N s c).next
      unfold metaAt
      rw [hc, hhN]
    · rw [getD_set_ne s.meta (c % N) s.head _ (by omega)]
      rfl


theorem alloc_dealloc_roundtrip_witness :
    (dealloc_slab 4 16 0 (alloc_slab 4 16 0 (zeroSuperslab 4) 5).2
       (alloc_slab 4 16 0 (zeroSuperslab 4) 5).1).2.head
      = (zeroSuperslab 4).head ∧
    ∀ j, walkFrom 4 (dealloc_slab 4 16 0 (alloc_slab 4 16 0 (zeroSuperslab 4) 5).2
       (alloc_slab 4 16 0 (zeroSuperslab 4) 5).1).2 j
      = walkFrom 4 (zeroSuperslab 4) j :=
  alloc_dealloc_roundtrip 4 16 0 5 (zeroSuperslab 4) (by decide) (by decide)
    (by decide)

/-- C6: when the short slab is already allocated (`used` odd),
`alloc_short_slab` is extensionally the very same operation as
`alloc_slab`: same returned address and same successor state (hence same
metadata updates, same `head` movement and the same `used` delta). -/
theorem alloc_short_slab_delegates (N SB base sc : Nat) (s : Superslab)
    (hodd : s.used % 2 = 1) :
    alloc_short_slab N SB base s sc = alloc_slab N SB base s sc := by
  unfold alloc_short_slab
  rw [if_pos (by simpa using hodd)]

theorem alloc_short_slab_delegates_witness :
    alloc_short_slab 4 16 0 (Superslab.mk 1 1 (List.replicate 4 default)) 5
      = alloc_slab 4 16 0 (Superslab.mk 1 1 (List.replicate 4 default)) 5 :=
  alloc_short_slab_delegates 4 16 0 5
    (Superslab.mk 1 1 (List.replicate 4 default)) rfl

/-- C7: short-slab operations never touch the regular free list.  With the
short slab free (`used` even), `alloc_short_slab` rewrites only slot 0's
metadata record, increments `used` by exactly 1 and leaves `head` and every
regular slot's record unchanged; `dealloc_short_slab` (valid when the short
slab is allocated, `used` odd) decrements `used` by exactly 1 and leaves
`head` and the entire metadata array unchanged. -/
theorem short_slab_independence (N SB base sc : Nat) (s : Superslab)
    (hlen : s.meta.length = N) (hN : 2 ≤ N) (hN2 : N ≤ 256)
    (hused : s.used ≤ 2 * (N - 1) + 1) :
    (s.used % 2 = 0 →
      (alloc_short_slab N SB base s sc).2.head = s.head ∧
      (alloc_short_slab N SB base s sc).2.used = s.used + 1 ∧
      (alloc_short_slab N SB base s sc).2.meta = s.meta.set 0
        { next := (metaAt N s 0).next, sizeclass := sc % 256,
          fullQueue := true } ∧
      ∀ i, 1 ≤ i → i < N →
        metaAt N (alloc_short_slab N SB base s sc).2 i = metaAt N s i) ∧
    (s.used % 2 = 1 →
      (dealloc_short_slab N s).2.head = s.head ∧
      (dealloc_short_slab N s).2.used = s.used - 1 ∧
      (dealloc_short_slab N s).2.meta = s.meta) := by
  constructor
  · intro heven
    have hcond : ¬ ((s.used % 2 == 1) = true) := by simp [heven]
    unfold alloc_short_slab
    rw [if_neg hcond]
    refine ⟨rfl, ?_, ?_, ?_⟩
    · show (s.used + 1) % 2 ^ 16 = s.used + 1
      exact Nat.mod_eq_of_lt (by omega)
    · show (setMeta N s 0 _).meta = _
      unfold setMeta
      rw [Nat.zero_mod]
    · intro i hi1 hiN
      exact metaAt_setMeta_ne N s i 0 _
        (by rw [Nat.zero_mod, Nat.mod_eq_of_lt hiN]; omega)
  · intro hodd
    simp only [dealloc_short_slab]
    refine ⟨trivial, ?_, trivial⟩
    show (s.used + 2 ^ 16 - 1) % 2 ^ 16 = s.used - 1
    have h1 : s.used + 2 ^ 16 - 1 = (s.used - 1) + 2 ^ 16 := by omega
    rw [h1, Nat.add_mod_right]
    exact Nat.mod_eq_of_lt (by omega)

theorem short_slab_independence_witness :
    ((zeroSuperslab 4).used % 2 = 0 →
      (alloc_short_slab 4 16 0 (zeroSuperslab 4) 5).2.head
        = (zeroSuperslab 4).head ∧
      (alloc_short_slab 4 16 0 (zeroSuperslab 4) 5).2.used
        = (zeroSuperslab 4).used + 1 ∧
      (alloc_short_slab 4 16 0 (zeroSuperslab 4) 5).2.meta
        = (zeroSuperslab 4).meta.set 0
          { next := (metaAt 4 (zeroSuperslab 4) 0).next, sizeclass := 5 % 256,
            fullQueue := true } ∧
      ∀ i, 1 ≤ i → i < 4 →
        metaAt 4 (alloc_short_slab 4 16 0 (zeroSuperslab 4) 5).2 i
          = metaAt 4 (zeroSuperslab 4) i) ∧
    ((zeroSuperslab 4).used % 2 = 1 →
      (dealloc_short_slab 4 (zeroSuperslab 4)).2.head = (zeroSuperslab 4).head ∧
      (dealloc_short_slab 4 (zeroSuperslab 4)).2.used
        = (zeroSuperslab 4).used - 1 ∧
      (dealloc_short_slab 4 (zeroSuperslab 4)).2.meta = (zeroSuperslab 4).meta) :=
  short_slab_independence 4 16 0 5 (zeroSuperslab 4) (by decide) (by decide)
    (by decide) (by decide)


/-- C8 counterexample: the state reached from a zero-filled superslab by a
single `alloc_slab` (head 2, used 2, only slot 1 marked allocated) satisfies
the free-list and used-encoding invariants, yet the debug walk of `init`
runs `SLAB_COUNT - used - 1 = 1` step — not the claimed
`SLAB_COUNT - (used >> 1) - 1 = 2` steps — lands on slot 3, and the check
`curr != 0` aborts. -/
theorem init_debug_walk_counterexample :
    chainInv 4 (Superslab.mk 2 2
      [⟨0, 0, false⟩, ⟨0, 5, true⟩, ⟨0, 0, false⟩, ⟨0, 0, false⟩]) ∧
    (Superslab.mk 2 2
      [⟨0, 0, false⟩, ⟨0, 5, true⟩, ⟨0, 0, false⟩, ⟨0, 0, false⟩]).used = 2 ∧
    initWalkSteps 4 2 = 1 ∧
    4 - (2 >>> 1) - 1 = 2 ∧
    walkFrom 4 (Superslab.mk 2 2
      [⟨0, 0, false⟩, ⟨0, 5, true⟩, ⟨0, 0, false⟩, ⟨0, 0, false⟩]) 1 = 3 ∧
    initChainCheck 4 (Superslab.mk 2 2
      [⟨0, 0, false⟩, ⟨0, 5, true⟩, ⟨0, 0, false⟩, ⟨0, 0, false⟩]) = false := by
  decide

/-- C8 (amended): the debug-only check in `init` walks the free chain for
exactly `SLAB_COUNT - used - 1` steps (`size_t` arithmetic), not
`SLAB_COUNT - (used >> 1) - 1`; in every invariant-satisfying state with
`used = 0` (the situation `init` establishes) that count is
`SLAB_COUNT - 1`, the walk lands on slot 0 and the check passes. -/
theorem init_debug_walk_amended (N : Nat) (s : Superslab)
    (hinv : chainInv N s) (hused : s.used = 0) (hN : 2 ≤ N)
    (hN2 : N ≤ 256) :
    initWalkSteps N s.used = N - 1 ∧ initChainCheck N s = true := by
  have hb : (2 : Int) ^ 64 = 18446744073709551616 := by norm_num
  have hsteps : initWalkSteps N s.used = N - 1 := by
    rw [hused]
    unfold initWalkSteps
    rw [Int.emod_eq_of_lt (by omega) (by rw [hb]; omega)]
    omega
  refine ⟨hsteps, ?_⟩
  unfold initChainCheck
  rw [hsteps]
  obtain ⟨-, -, -, hterm, -⟩ := hinv
  have hf : freeCount N s = N - 1 := by
    simp [freeCount, hused]
  rw [hf] at hterm
  simp [hterm]

theorem init_debug_walk_amended_witness :
    initWalkSteps 4 (zeroSuperslab 4).used = 3 ∧
    initChainCheck 4 (zeroSuperslab 4) = true :=
  init_debug_walk_amended 4 (zeroSuperslab 4) (by decide) rfl (by decide)
    (by decide)


theorem find_least_some (p : Nat → Bool) (fuel : Nat) :
    ∀ start h, find_least p fuel start = some h →
      p h = true ∧ start ≤ h ∧ ∀ c, start ≤ c → c < h → p c = false := by
  induction fuel with
  | zero =>
      intro start h hfind
      simp [find_least] at hfind
  | succ fuel ih =>
      intro start h hfind
      unfold find_least at hfind
      by_cases hp : p start = true
      · rw [if_pos hp] at hfind
        cases hfind
        exact ⟨hp, Nat.le_refl _, fun c hc1 hc2 => absurd hc2 (by omega)⟩
      · rw [if_neg hp] at hfind
        obtain ⟨h1, h2, h3⟩ := ih (start + 1) h hfind
        refine ⟨h1, by omega, ?_⟩
        intro c hc1 hc2
        rcases Nat.eq_or_lt_of_le hc1 with hc | hc
        · subst hc
          exact Bool.not_eq_true _ ▸ (by simpa using hp)
        · exact h3 c (by omega) hc2

theorem find_least_none (p : Nat → Bool) (fuel : Nat) :
    ∀ start, find_least p fuel start = none →
      ∀ c, start ≤ c → c < start + fuel → p c = false := by
  induction fuel with
  | zero =>
      intro start _ c hc1 hc2
      omega
  | succ fuel ih =>
      intro start hfind c hc1 hc2
      unfold find_least at hfind
      by_cases hp : p start = true
      · rw [if_pos hp] at hfind
        cases hfind
      · rw [if_neg hp] at hfind
        rcases Nat.eq_or_lt_of_le hc1 with hc | hc
        · subst hc
          simpa using hp
        · exact ih (start + 1) hfind c (by omega) (by omega)

/-- C9: `is_short_sizeclass sc` is true iff `sc` is strictly below the
constant threshold class `size_to_sizeclass_const (SLAB_SIZE - sizeof
Superslab)`; consequently it is true only for classes whose maximum object
size is strictly less than `SLAB_SIZE` minus the header size, and false
for the boundary class and for every class whose size reaches that bound. -/
theorem is_short_sizeclass_spec (s2s : Nat → Nat)
    (numClasses SLABSZ hdrSize sc : Nat) (hhdr : hdrSize < SLABSZ)
    (hex : ∃ c, c < numClasses ∧ SLABSZ - hdrSize ≤ s2s c) :
    (is_short_sizeclass s2s numClasses SLABSZ hdrSize sc = true ↔
      sc < size_to_sizeclass_const s2s numClasses (SLABSZ - hdrSize)) ∧
    (is_short_sizeclass s2s numClasses SLABSZ hdrSize sc = true →
      s2s sc < SLABSZ - hdrSize) ∧
    (SLABSZ - hdrSize ≤ s2s sc →
      is_short_sizeclass s2s numClasses SLABSZ hdrSize sc = false) ∧
    (size_to_sizeclass_const s2s numClasses (SLABSZ - hdrSize) ≤ sc →
      is_short_sizeclass s2s numClasses SLABSZ hdrSize sc = false) := by
  obtain ⟨c0, hc0, hc0p⟩ := hex
  have hnone : find_least (fun c => decide (SLABSZ - hdrSize ≤ s2s c))
      numClasses 0 ≠ none := by
    intro hcontra
    have := find_least_none _ numClasses 0 hcontra c0 (by omega) (by omega)
    simp at this
    omega
  rcases hfl : find_least (fun c => decide (SLABSZ - hdrSize ≤ s2s c))
      numClasses 0 with - | h
  · exact absurd hfl hnone
  obtain ⟨hph, -, hmin⟩ := find_least_some _ numClasses 0 h hfl
  have hconst : size_to_sizeclass_const s2s numClasses (SLABSZ - hdrSize)
      = h := by
    unfold size_to_sizeclass_const
    rw [hfl]
    rfl
  rw [hconst]
  refine ⟨by simp [is_short_sizeclass, hconst], ?_, ?_, ?_⟩
  · intro hshort
    have hlt : sc < h := by
      simpa [is_short_sizeclass, hconst] using hshort
    have hs := hmin sc (by omega) hlt
    simp at hs
    omega
  · intro hge
    by_contra hcontra
    have hlt : sc < h := by
      simp only [is_short_sizeclass, hconst, Bool.not_eq_false,
        decide_eq_true_eq] at hcontra
      exact hcontra
    have := hmin sc (by omega) hlt
    simp at this
    omega
  · intro hge
    simp [is_short_sizeclass, hconst]
    omega

theorem is_short_sizeclass_spec_witness :
    (is_short_sizeclass (fun c => 16 * (c + 1)) 8 64 24 1 = true ↔
      1 < size_to_sizeclass_const (fun c => 16 * (c + 1)) 8 (64 - 24)) ∧
    (is_short_sizeclass (fun c => 16 * (c + 1)) 8 64 24 1 = true →
      16 * (1 + 1) < 64 - 24) ∧
    (64 - 24 ≤ 16 * (1 + 1) →
      is_short_sizeclass (fun c => 16 * (c + 1)) 8 64 24 1 = false) ∧
    (size_to_sizeclass_const (fun c => 16 * (c + 1)) 8 (64 - 24) ≤ 1 →
      is_short_sizeclass (fun c => 16 * (c + 1)) 8 64 24 1 = false) :=
  is_short_sizeclass_spec (fun c => 16 * (c + 1)) 8 64 24 1 (by decide)
    ⟨2, by decide⟩


theorem get_status_cases (N : Nat) (t : Superslab) :
    get_status N t = statusOf N t.used := by
  simp only [get_status, is_almost_full, is_empty, is_full, statusOf,
    beq_iff_eq, decide_eq_true_eq]
  split_ifs <;> simp_all

theorem statusChange_iff_regular (N k b : Nat) (hN : 2 ≤ N) (hb : b ≤ 1)
    (hk1 : 1 ≤ k) (hk : k ≤ N - 1) :
    ((2 * (N - 1) ≤ 2 * k + b ∨ (2 * k + b) - 2 = 0) ↔
      statusOf N ((2 * k + b) - 2) ≠ statusOf N (2 * k + b)) := by
  unfold statusOf
  split_ifs <;> simp_all <;> omega

theorem statusChange_iff_short (N k : Nat) (hN : 2 ≤ N) (hk : k ≤ N - 1) :
    ((2 * k + 1 = 2 * (N - 1) + 1 ∨ (2 * k + 1) - 1 = 0) ↔
      statusOf N ((2 * k + 1) - 1) ≠ statusOf N (2 * k + 1)) := by
  unfold statusOf
  split_ifs <;> simp_all <;> omega

/-- C10: for every valid deallocation the returned `Action` is
`StatusChange` exactly when the value of `get_status` after the call
differs from its value before: the cheap tests (was-almost-full or
becomes-empty for `dealloc_slab`; was-full or becomes-empty for
`dealloc_short_slab`) coincide with an actual change of `get_status`. -/
theorem dealloc_action_iff_status_change (N SB base : Nat) (hN : 2 ≤ N)
    (hN2 : N ≤ 256) :
    (∀ (s : Superslab) (k b slabAddr : Nat), s.used = 2 * k + b → b ≤ 1 →
      1 ≤ k → k ≤ N - 1 →
      ((dealloc_slab N SB base s slabAddr).1 = Action.StatusChange ↔
        get_status N (dealloc_slab N SB base s slabAddr).2
          ≠ get_status N s)) ∧
    (∀ (s : Superslab) (k : Nat), s.used = 2 * k + 1 → k ≤ N - 1 →
      ((dealloc_short_slab N s).1 = Action.StatusChange ↔
        get_status N (dealloc_short_slab N s).2 ≠ get_status N s)) := by
  constructor
  · intro s k b slabAddr henc hb hk1 hk
    have hused : (s.used + 2 ^ 16 - 2) % 2 ^ 16 = s.used - 2 := by
      have h1 : s.used + 2 ^ 16 - 2 = (s.used - 2) + 2 ^ 16 := by omega
      rw [h1, Nat.add_mod_right]
      exact Nat.mod_eq_of_lt (by omega)
    have h2used : (dealloc_slab N SB base s slabAddr).2.used = s.used - 2 := by
      simp only [dealloc_slab, setMeta, hused]
    have hact : (dealloc_slab N SB base s slabAddr).1
        = if (decide (2 * (N - 1) ≤ s.used) || ((s.used - 2) == 0)) then
            Action.StatusChange else Action.NoStatusChange := by
      simp only [dealloc_slab, setMeta, is_almost_full, is_empty, hused]
    rw [hact, get_status_cases N ((dealloc_slab N SB base s slabAddr).2),
      get_status_cases N s, h2used, henc]
    have hkey := statusChange_iff_regular N k b hN hb hk1 hk
    have hCiff : (decide (2 * (N - 1) ≤ 2 * k + b)
        || ((2 * k + b - 2) == 0)) = true ↔
        (2 * (N - 1) ≤ 2 * k + b ∨ 2 * k + b - 2 = 0) := by
      simp
    by_cases hc : (2 * (N - 1) ≤ 2 * k + b ∨ 2 * k + b - 2 = 0)
    · rw [if_pos (hCiff.mpr hc)]
      exact iff_of_true rfl (hkey.mp hc)
    · rw [if_neg (fun h => hc (hCiff.mp h))]
      exact iff_of_false (by simp) (fun hne => hc (hkey.mpr hne))
  · intro s k henc hk
    have hused : (s.used + 2 ^ 16 - 1) % 2 ^ 16 = s.used - 1 := by
      have h1 : s.used + 2 ^ 16 - 1 = (s.used - 1) + 2 ^ 16 := by omega
      rw [h1, Nat.add_mod_right]
      exact Nat.mod_eq_of_lt (by omega)
    have h2used : (dealloc_short_slab N s).2.used = s.used - 1 := by
      simp only [dealloc_short_slab, hused]
    have hact : (dealloc_short_slab N s).1
        = if ((s.used == 2 * (N - 1) + 1) || ((s.used - 1) == 0)) then
            Action.StatusChange else Action.NoStatusChange := by
      simp only [dealloc_short_slab, is_full, is_empty, hused]
    rw [hact, get_status_cases N ((dealloc_short_slab N s).2),
      get_status_cases N s, h2used, henc]
    have hkey := statusChange_iff_short N k hN hk
    have hCiff : ((2 * k + 1 == 2 * (N - 1) + 1)
        || ((2 * k + 1 - 1) == 0)) = true ↔
        (2 * k + 1 = 2 * (N - 1) + 1 ∨ 2 * k + 1 - 1 = 0) := by
      simp
    by_cases hc : (2 * k + 1 = 2 * (N - 1) + 1 ∨ 2 * k + 1 - 1 = 0)
    · rw [if_pos (hCiff.mpr hc)]
      exact iff_of_true rfl (hkey.mp hc)
    · rw [if_neg (fun h => hc (hCiff.mp h))]
      exact iff_of_false (by simp) (fun hne => hc (hkey.mpr hne))

theorem dealloc_action_iff_status_change_witness :
    (∀ (s : Superslab) (k b slabAddr : Nat), s.used = 2 * k + b → b ≤ 1 →
      1 ≤ k → k ≤ 4 - 1 →
      ((dealloc_slab 4 16 0 s slabAddr).1 = Action.StatusChange ↔
        get_status 4 (dealloc_slab 4 16 0 s slabAddr).2
          ≠ get_status 4 s)) ∧
    (∀ (s : Superslab) (k : Nat), s.used = 2 * k + 1 → k ≤ 4 - 1 →
      ((dealloc_short_slab 4 s).1 = Action.StatusChange ↔
        get_status 4 (dealloc_short_slab 4 s).2 ≠ get_status 4 s)) :=
  dealloc_action_iff_status_change 4 16 0 (by decide) (by decide)

end Snmalloc
